import Mathlib

/-!
Verification of the dfdx autodiff core (fork `cBournhonesque/dfdx`):
shallow embedding of `src/tensor_ops/matmul.rs`, `src/optim/sgd.rs` and
`src/data/data_loader.rs`, together with the gradient-store contract the
spec describes, and proofs of the specification claims about them.

Tensors hold `f32` values; floating-point values are modelled exactly as the
dyadic rationals representable in IEEE-754 binary32, with arithmetic given by
exact integer arithmetic followed by round-to-nearest, ties-to-even.
-/

namespace Dfdx

/-! ## Exact binary32 arithmetic

An `f32` value is represented exactly as a dyadic rational `m * 2^e` with odd
significand `m` (and `e = 0` when `m = 0`), a canonical form making structural
equality coincide with value equality.  All operations are exact integer
arithmetic followed by IEEE-754 round-to-nearest, ties-to-even at 24 bits of
significand, with subnormal precision clamped at exponent `-126`.  The
overflow / NaN range is never reached by the computations verified here, so it
is not modelled.  Fuel-based structural recursions replace well-founded ones
so that every proof can be checked by kernel reduction. -/

/-- An exact binary32 value `m * 2^e`, with `m` odd (or `m = 0, e = 0`). -/
structure F32 : Type where
  m : ℤ
  e : ℤ
  deriving DecidableEq, Repr

/-- Bit length of a natural number (fuel-based, `bitlenAux fuel n`). -/
def bitlenAux : ℕ → ℕ → ℕ
  | 0, _ => 0
  | f + 1, n => if n = 0 then 0 else bitlenAux f (n / 2) + 1

/-- Bit length: the number of binary digits of `n` (0 for 0). -/
def bitlen (n : ℕ) : ℕ := bitlenAux 300 n

/-- Largest odd divisor and the stripped power of two: `oddify n = (m, k)`
with `n = m * 2^k` and `m` odd (for `n ≠ 0`). -/
def oddifyAux : ℕ → ℕ → ℕ × ℕ
  | 0, n => (n, 0)
  | f + 1, n =>
    if n % 2 = 1 ∨ n = 0 then (n, 0)
    else
      let (m, k) := oddifyAux f (n / 2)
      (m, k + 1)

/-- Largest odd divisor of `n` together with the stripped power of two. -/
def oddify (n : ℕ) : ℕ × ℕ := oddifyAux 300 n

/-- Does `p ≥ q * 2^d` hold (with `d` a possibly negative shift)? -/
def geShift (p q : ℕ) (d : ℤ) : Bool :=
  if 0 ≤ d then q * 2 ^ d.toNat ≤ p else q ≤ p * 2 ^ (-d).toNat

/-- Round the positive value `(p / q) * 2^t` (`p, q > 0`) to binary32, giving
its canonical odd-significand representation with the given sign. -/
def roundPos (sign : Bool) (p q : ℕ) (t : ℤ) : F32 :=
  let d : ℤ := (bitlen p : ℤ) - (bitlen q : ℤ)
  -- e is the floor of the base-2 logarithm of p / q
  let e : ℤ := if geShift p q d then d else d - 1
  -- clamp at the subnormal precision boundary (exponent of the value is e + t)
  let e2 : ℤ := max (e + t) (-126) - t
  let s : ℤ := 23 - e2
  let n : ℕ := if 0 ≤ s then p * 2 ^ s.toNat else p
  let q2 : ℕ := if 0 ≤ s then q else q * 2 ^ (-s).toNat
  let m0 : ℕ := n / q2
  let r : ℕ := n % q2
  let m1 : ℕ :=
    if 2 * r < q2 then m0
    else if q2 < 2 * r then m0 + 1
    else if m0 % 2 = 0 then m0 else m0 + 1
  if m1 = 0 then ⟨0, 0⟩
  else
    let (mo, k) := oddify m1
    ⟨if sign then -(mo : ℤ) else (mo : ℤ), e2 - 23 + t + k⟩

/-- Round a dyadic integer value `s * 2^t` to binary32. -/
def roundDyadic (s : ℤ) (t : ℤ) : F32 :=
  if s = 0 then ⟨0, 0⟩ else roundPos (s < 0) s.natAbs 1 t

/-- `f32` addition: exact sum, then binary32 rounding. -/
def fadd32 (a b : F32) : F32 :=
  let emin : ℤ := min a.e b.e
  roundDyadic (a.m * 2 ^ (a.e - emin).toNat + b.m * 2 ^ (b.e - emin).toNat) emin

/-- `f32` negation (exact). -/
def fneg32 (a : F32) : F32 := ⟨-a.m, if a.m = 0 then 0 else a.e⟩

/-- `f32` subtraction. -/
def fsub32 (a b : F32) : F32 := fadd32 a (fneg32 b)

/-- `f32` multiplication: exact product, then binary32 rounding. -/
def fmul32 (a b : F32) : F32 := roundDyadic (a.m * b.m) (a.e + b.e)

/-- `f32` division (`b ≠ 0`; division by zero, which the verified code never
performs, is modelled as zero). -/
def fdiv32 (a b : F32) : F32 :=
  if a.m = 0 ∨ b.m = 0 then ⟨0, 0⟩
  else roundPos ((a.m < 0) ≠ (b.m < 0)) a.m.natAbs b.m.natAbs (a.e - b.e)

/-- The binary32 value nearest to the decimal fraction `n / 10^k` (how an
`f32` literal with `k` digits after the point denotes a float). -/
def ofDec (n : ℤ) (k : ℕ) : F32 :=
  if n = 0 then ⟨0, 0⟩ else roundPos (n < 0) n.natAbs (10 ^ k) 0

/-- The binary32 value of an integer. -/
def ofInt (n : ℤ) : F32 := roundDyadic n 0

/-- The exact rational value of an `F32`. -/
def F32.toRat (a : F32) : ℚ :=
  if 0 ≤ a.e then (a.m : ℚ) * 2 ^ a.e.toNat else (a.m : ℚ) / 2 ^ (-a.e).toNat

/-- The zero of `F32`. -/
def f32zero : F32 := ⟨0, 0⟩

/-! ## Gradient store

Modelled from the spec (section 4.1): the gradient-store source itself is not
under `src/`; only its contract is specified.  Tensor identities are naturals;
buffers are shape-polymorphic (`β`), matching the store's use both with 1-D
and 2-D gradient buffers. -/

/-- Modelled from the spec: an identity-keyed mapping from tensor id to an
owned gradient buffer (spec section 4.1, `Gradients` is not under `src/`). -/
def Store (β : Type) : Type := ℕ → Option β

/-- The empty store. -/
def Store.empty {β : Type} : Store β := fun _ => none

/-- Insert or replace the buffer for `id`. -/
def Store.set {β : Type} (s : Store β) (id : ℕ) (b : β) : Store β :=
  fun j => if j = id then some b else s j

/-- Delete the entry for `id`. -/
def Store.del {β : Type} (s : Store β) (id : ℕ) : Store β :=
  fun j => if j = id then none else s j

/-- Modelled from the spec: `remove(id)` detaches and returns ownership of the
buffer for `id` if present; `none` (absent) otherwise. -/
def Store.remove {β : Type} (s : Store β) (id : ℕ) : Option (β × Store β) :=
  match s id with
  | none => none
  | some b => some (b, s.del id)

/-- Modelled from the spec: allocate-on-miss lookup (`mut` / `get_or_zero`);
`zero` is the zero buffer of the shadowed tensor's shape. -/
def Store.getOrAlloc {β : Type} (s : Store β) (id : ℕ) (zero : β) : β × Store β :=
  match s id with
  | some b => (b, s)
  | none => (zero, s.set id zero)

/-- Modelled from the spec: `get_mut_and_ref(id_a, id_b)` resolves two DISTINCT
identities simultaneously, allocating on miss; equal identities are a contract
violation, modelled as `none`. -/
def Store.mutAndRef {β : Type} (s : Store β) (ida : ℕ) (za : β) (idb : ℕ) (zb : β) :
    Option (β × β × Store β) :=
  if ida = idb then none
  else
    let (a, s1) := s.getOrAlloc ida za
    let (b, s2) := s1.getOrAlloc idb zb
    some (a, b, s2)

/-! ## Sgd (`src/optim/sgd.rs`)

Parameters in the optimizer claims are 1-D `f32` tensors; a parameter is
embedded as its identity together with its value list. -/

/-- Momentum used for `Sgd` (`src/optim/sgd.rs`). -/
inductive Momentum : Type where
  | Classic (u : F32)
  | Nesterov (u : F32)

/-- Configuration of hyperparameters for `Sgd`. -/
structure SgdConfig : Type where
  lr : F32
  momentum : Option Momentum
  weight_decay : Option F32

/-- The `Sgd` optimizer state: hyperparameters, the persistent per-parameter
velocity store, and the most recently supplied gradient store. -/
structure Sgd : Type where
  cfg : SgdConfig
  velocity : Store (List F32)
  gradients : Store (List F32)

/-- The all-zero 1-D buffer of length `n`. -/
def zeros1 (n : ℕ) : List F32 := List.replicate n f32zero

/-- `Sgd::gradient` (the `GradientProvider` impl in `src/optim/sgd.rs`):
removes the parameter's gradient from the working store (returning `none` when
absent), applies the configured momentum rule against the persistent velocity
buffer, then the configured weight decay, and returns the update buffer
together with the optimizer state after the call. -/
def Sgd.gradient (o : Sgd) (pid : ℕ) (pdata : List F32) : Option (List F32) × Sgd :=
  match o.gradients.remove pid with
  | none => (none, o)
  | some (g, grads) =>
    let o := { o with gradients := grads }
    let (g, o) :=
      match o.cfg.momentum with
      | some (.Classic u) =>
        let (v, vel) := o.velocity.getOrAlloc pid (zeros1 pdata.length)
        let v := List.zipWith (fun gi vi => fadd32 gi (fmul32 u vi)) g v
        (v.map (fun vi => fmul32 vi o.cfg.lr), { o with velocity := vel.set pid v })
      | some (.Nesterov u) =>
        let (v, vel) := o.velocity.getOrAlloc pid (zeros1 pdata.length)
        let v := List.zipWith (fun gi vi => fadd32 gi (fmul32 u vi)) g v
        (List.zipWith (fun gi vi => fmul32 (fadd32 gi (fmul32 u vi)) o.cfg.lr) g v,
          { o with velocity := vel.set pid v })
      | none => (g.map (fun gi => fmul32 gi o.cfg.lr), o)
    let g :=
      match o.cfg.weight_decay with
      | some wd => List.zipWith (fun gi pi => fadd32 gi (fmul32 wd pi)) g pdata
      | none => g
    (some g, o)

/-- Modelled from the spec (sections 4.4 and 7): the depth-first parameter
traversal of `CanUpdateWithGradients::update` (not under `src/`) specialized
to a flat list of parameters: each parameter asks the optimizer for its update;
a present update is subtracted in place, an absent one records the parameter
into the unused-parameters collection. -/
def sgdUpdateParams (o : Sgd) : List (ℕ × List F32) → List (ℕ × List F32) × List ℕ × Sgd
  | [] => ([], [], o)
  | (pid, pdata) :: rest =>
    match Sgd.gradient o pid pdata with
    | (none, o1) =>
      let (ps, unused, o2) := sgdUpdateParams o1 rest
      ((pid, pdata) :: ps, pid :: unused, o2)
    | (some upd, o1) =>
      let (ps, unused, o2) := sgdUpdateParams o1 rest
      ((pid, List.zipWith fsub32 pdata upd) :: ps, unused, o2)

/-- `Sgd::update` (`src/optim/sgd.rs`, with the traversal and the
`UnusedTensors`-to-result conversion modelled from the spec): stores the
supplied gradients as the working set, traverses the parameters, and reports
the unused-parameter identities as a recoverable error when any exist. -/
def Sgd.update (o : Sgd) (params : List (ℕ × List F32)) (grads : Store (List F32)) :
    List (ℕ × List F32) × Except (List ℕ) Unit × Sgd :=
  let o := { o with gradients := grads }
  let (ps, unused, o1) := sgdUpdateParams o params
  (ps, if unused.isEmpty then .ok () else .error unused, o1)

/-! ## The numeric-trace scenarios of the `sgd.rs` tests -/

/-- A fresh `Sgd` with the given hyperparameters (`Sgd::new`). -/
def sgdInit (cfg : SgdConfig) : Sgd := ⟨cfg, Store.empty, Store.empty⟩

/-- The f32 values of the test rate tensor `[0.1, 1.0, 2.0, 10.0, 100.0]`. -/
def rateVals : List F32 := [ofDec 1 1, ofInt 1, ofInt 2, ofInt 10, ofInt 100]

/-- Modelled from the spec: the gradient of `mean(t * rate)` with respect to
`t` (the `mul`/`mean` backward ops are not under `src/`); each element is
`rate_i * (1/5)` in f32 arithmetic, independent of `t`. -/
def meanMulGrad : List F32 := rateVals.map (fun r => fmul32 r (fdiv32 (ofInt 1) (ofInt 5)))

/-- One step of the momentum numeric-trace scenario: a gradient store holding
`meanMulGrad` under the parameter's id 0, then `Sgd::update`. -/
def traceStep (p : Sgd × List F32) : Sgd × List F32 :=
  let (ps, _, o1) := p.1.update [(0, p.2)] (Store.empty.set 0 meanMulGrad)
  (o1, (ps.headD (0, [])).2)

/-- The parameter after `n` steps of the momentum trace scenario, starting
from the all-ones 1x5 tensor. -/
def traceAfter (cfg : SgdConfig) (n : ℕ) : List F32 :=
  (traceStep^[n] (sgdInit cfg, List.replicate 5 (ofInt 1))).2

/-- The classic-momentum configuration of `test_sgd_classic_momentum`. -/
def classicCfg : SgdConfig := ⟨ofDec 1 2, some (.Classic (ofDec 5 1)), none⟩

/-- Modelled from the spec: the sign of an f32 value, the derivative of the
absolute-value function used by the absolute-error loss. -/
def sign32 (a : F32) : F32 := if a.m < 0 then ofInt (-1) else if 0 < a.m then ofInt 1 else f32zero

/-- Modelled from the spec: the gradient of `mean(abs(pred - targ))` with
respect to `pred` (the `sub`/`abs`/`mean` backward ops are not under `src/`),
in f32 arithmetic. -/
def absMeanGrad (pred targ : List F32) : List F32 :=
  List.zipWith (fun p t => fmul32 (sign32 (fsub32 p t)) (fdiv32 (ofInt 1) (ofInt 5))) pred targ

/-- One step of the `test_perfect_sgd` scenario: absolute-error loss against
the all-ones target, plain SGD with learning rate 1. -/
def perfectStep (p : Sgd × List F32) : Sgd × List F32 :=
  let grads : Store (List F32) := Store.empty.set 0 (absMeanGrad p.2 (List.replicate 5 (ofInt 1)))
  let (ps, _, o1) := p.1.update [(0, p.2)] grads
  (o1, (ps.headD (0, [])).2)

/-- The parameter after `n` steps of the `test_perfect_sgd` scenario, starting
from the all-zero 1x5 tensor. -/
def perfectAfter (n : ℕ) : List F32 :=
  (perfectStep^[n] (sgdInit ⟨ofInt 1, none, none⟩, List.replicate 5 f32zero)).2

/-! ## Matmul kernel set (`src/tensor_ops/matmul.rs`)

A 2-D tensor's data is a row-major list of rows, a 1-D tensor's data a flat
list.  The kernels are translated from the `sgemm` calls, reading each operand
through the strides the call passes; every kernel accumulates into `out`
(`sgemm` is always invoked with `beta = 1.0`).  The element type is an
arbitrary commutative ring, abstracting the exact-kernel numeric contract. -/

variable {α : Type} [CommRing α]

/-- Entry `(i, j)` of a row-major matrix (0 outside the stored data). -/
def idx2 (a : List (List α)) (i j : ℕ) : α := (a.getD i []).getD j 0

/-- Entry `i` of a vector (0 outside the stored data). -/
def idx1 (a : List α) (i : ℕ) : α := a.getD i 0

/-- Build an `m` by `o` row-major matrix from an entry function. -/
def mkMat (m o : ℕ) (f : ℕ → ℕ → α) : List (List α) :=
  (List.range m).map fun i => (List.range o).map fun k => f i k

/-- Build a length-`o` vector from an entry function. -/
def mkVec (o : ℕ) (f : ℕ → α) : List α := (List.range o).map f

/-- The zero `m` by `n` matrix. -/
def zeros2 (m n : ℕ) : List (List α) := List.replicate m (List.replicate n 0)

/-- The zero vector of length `n`. -/
def vzeros (n : ℕ) : List α := List.replicate n 0

/-- Matrix multiply `out += x * y` (`matmat_mul_into`): `x` is `M` by `N`,
`y` is `N` by `O`, `out` is `M` by `O`. -/
def matmat_mul_into (M N O : ℕ) (x y out : List (List α)) : List (List α) :=
  mkMat M O fun i k => idx2 out i k + ∑ j ∈ Finset.range N, idx2 x i j * idx2 y j k

/-- Matrix multiply `out += transpose(x_t) * y` (`matmat_mul_into_xt`):
`x_t` is stored `N` by `M` and read transposed, `y` is `N` by `O`,
`out` is `M` by `O`. -/
def matmat_mul_into_xt (M N O : ℕ) (x_t y out : List (List α)) : List (List α) :=
  mkMat M O fun i k => idx2 out i k + ∑ j ∈ Finset.range N, idx2 x_t j i * idx2 y j k

/-- Matrix multiply `out += x * transpose(y_t)` (`matmat_mul_into_yt`):
`x` is `M` by `N`, `y_t` is stored `O` by `N` and read transposed,
`out` is `M` by `O`. -/
def matmat_mul_into_yt (M N O : ℕ) (x y_t out : List (List α)) : List (List α) :=
  mkMat M O fun i k => idx2 out i k + ∑ j ∈ Finset.range N, idx2 x i j * idx2 y_t k j

/-- Matrix multiply `transpose(out_t) += transpose(x_t) * y`
(`matmat_mul_into_xtzt`): `x_t` is stored `N` by `M`, `y` is `N` by `O`, and
the result is accumulated transposed into the `O` by `M` buffer `out_t`. -/
def matmat_mul_into_xtzt (M N O : ℕ) (x_t y out_t : List (List α)) : List (List α) :=
  mkMat O M fun k i => idx2 out_t k i + ∑ j ∈ Finset.range N, idx2 x_t j i * idx2 y j k

/-- Vector-matrix multiply `out += x * y` (`vecmat_mul_into`): `x` has length
`N`, `y` is `N` by `O`, `out` has length `O`. -/
def vecmat_mul_into (N O : ℕ) (x : List α) (y : List (List α)) (out : List α) : List α :=
  mkVec O fun k => idx1 out k + ∑ j ∈ Finset.range N, idx1 x j * idx2 y j k

/-- Vector-matrix multiply `out += x * transpose(y_t)` (`vecmat_mul_into_yt`):
`x` has length `N`, `y_t` is stored `O` by `N`, `out` has length `O`. -/
def vecmat_mul_into_yt (N O : ℕ) (x : List α) (y_t : List (List α)) (out : List α) : List α :=
  mkVec O fun k => idx1 out k + ∑ j ∈ Finset.range N, idx1 x j * idx2 y_t k j

/-- Outer product `out += x ⊗ y` (`vecvec_mul_into`): `x` has length `M`,
`y` has length `O`, `out` is `M` by `O`. -/
def vecvec_mul_into (M O : ℕ) (x y : List α) (out : List (List α)) : List (List α) :=
  mkMat M O fun i k => idx2 out i k + idx1 x i * idx1 y k

/-- Forward value of `matmul(lhs, rhs)`: a zeroed result filled by
`matmat_mul_into(lhs.data(), rhs.data(), result.mut_data())`. -/
def matmulForward (M N O : ℕ) (lhs rhs : List (List α)) : List (List α) :=
  matmat_mul_into M N O lhs rhs (zeros2 M O)

/-- Forward value of `matmul_transpose(lhs, rhs_t)`: a zeroed result filled by
`matmat_mul_into_yt(lhs.data(), rhs_t.data(), result.mut_data())`. -/
def matmulTransposeForward (M N O : ℕ) (lhs rhs_t : List (List α)) : List (List α) :=
  matmat_mul_into_yt M N O lhs rhs_t (zeros2 M O)

/-- Forward value of `vecmat_mul(lhs, rhs)`. -/
def vecmatForward (N O : ℕ) (lhs : List α) (rhs : List (List α)) : List α :=
  vecmat_mul_into N O lhs rhs (vzeros O)

/-- Forward value of `vecmat_mul_transpose(lhs, rhs_t)`. -/
def vecmatTransposeForward (N O : ℕ) (lhs : List α) (rhs_t : List (List α)) : List α :=
  vecmat_mul_into_yt N O lhs rhs_t (vzeros O)

/-- A gradient buffer in the heterogeneous gradient store: the 1-D or 2-D
data of the tensor it shadows. -/
inductive Buf (α : Type) : Type where
  | d1 (v : List α)
  | d2 (a : List (List α))
  deriving DecidableEq

/-- The 2-D data of a buffer, failing on a 1-D buffer (the typed downcast a
reimplementation must check). -/
def Buf.asD2 : Buf α → Option (List (List α))
  | .d2 a => some a
  | .d1 _ => none

/-- The 1-D data of a buffer, failing on a 2-D buffer. -/
def Buf.asD1 : Buf α → Option (List α)
  | .d1 v => some v
  | .d2 _ => none

/-- The backward operation recorded by `matmul` (the closure at
`src/tensor_ops/matmul.rs:33-39`), closed over `lhs`'s values and id, the
snapshot of `rhs`'s values, `rhs`'s id and the output's id; `none` models a
contract violation (same-identity dual fetch, or a buffer of the wrong rank). -/
def matmulBackward (M N O : ℕ) (lhsData rhsData : List (List α))
    (lhsId rhsId outId : ℕ) (grads : Store (Buf α)) : Option (Store (Buf α)) := do
  let (lg, og, g1) ← grads.mutAndRef lhsId (.d2 (zeros2 M N)) outId (.d2 (zeros2 M O))
  let lgm ← lg.asD2
  let ogm ← og.asD2
  let g2 := g1.set lhsId (.d2 (matmat_mul_into_yt M O N ogm rhsData lgm))
  let (rg, og2, g3) ← g2.mutAndRef rhsId (.d2 (zeros2 N O)) outId (.d2 (zeros2 M O))
  let rgm ← rg.asD2
  let ogm2 ← og2.asD2
  some (g3.set rhsId (.d2 (matmat_mul_into_xt N M O lhsData ogm2 rgm)))

/-- The backward operation recorded by `matmul_transpose` (the closure at
`src/tensor_ops/matmul.rs:73-79`). -/
def matmulTransposeBackward (M N O : ℕ) (lhsData rhs_tData : List (List α))
    (lhsId rhsId outId : ℕ) (grads : Store (Buf α)) : Option (Store (Buf α)) := do
  let (lg, og, g1) ← grads.mutAndRef lhsId (.d2 (zeros2 M N)) outId (.d2 (zeros2 M O))
  let lgm ← lg.asD2
  let ogm ← og.asD2
  let g2 := g1.set lhsId (.d2 (matmat_mul_into M O N ogm rhs_tData lgm))
  let (rg, og2, g3) ← g2.mutAndRef rhsId (.d2 (zeros2 O N)) outId (.d2 (zeros2 M O))
  let rgm ← rg.asD2
  let ogm2 ← og2.asD2
  some (g3.set rhsId (.d2 (matmat_mul_into_xtzt N M O lhsData ogm2 rgm)))

/-- The backward operation recorded by `vecmat_mul` (the closure at
`src/tensor_ops/matmul.rs:112-118`). -/
def vecmatBackward (N O : ℕ) (lhsData : List α) (rhsData : List (List α))
    (lhsId rhsId outId : ℕ) (grads : Store (Buf α)) : Option (Store (Buf α)) := do
  let (lg, og, g1) ← grads.mutAndRef lhsId (.d1 (vzeros N)) outId (.d1 (vzeros O))
  let lgv ← lg.asD1
  let ogv ← og.asD1
  let g2 := g1.set lhsId (.d1 (vecmat_mul_into_yt O N ogv rhsData lgv))
  let (rg, og2, g3) ← g2.mutAndRef rhsId (.d2 (zeros2 N O)) outId (.d1 (vzeros O))
  let rgm ← rg.asD2
  let ogv2 ← og2.asD1
  some (g3.set rhsId (.d2 (vecvec_mul_into N O lhsData ogv2 rgm)))

/-- The backward operation recorded by `vecmat_mul_transpose` (the closure at
`src/tensor_ops/matmul.rs:151-157`). -/
def vecmatTransposeBackward (N O : ℕ) (lhsData : List α) (rhs_tData : List (List α))
    (lhsId rhsId outId : ℕ) (grads : Store (Buf α)) : Option (Store (Buf α)) := do
  let (lg, og, g1) ← grads.mutAndRef lhsId (.d1 (vzeros N)) outId (.d1 (vzeros O))
  let lgv ← lg.asD1
  let ogv ← og.asD1
  let g2 := g1.set lhsId (.d1 (vecmat_mul_into O N ogv rhs_tData lgv))
  let (rg, og2, g3) ← g2.mutAndRef rhsId (.d2 (zeros2 O N)) outId (.d1 (vzeros O))
  let rgm ← rg.asD2
  let ogv2 ← og2.asD1
  some (g3.set rhsId (.d2 (vecvec_mul_into O N ogv2 lhsData rgm)))

/-- Plain (non-accumulating) matrix product, for stating gradient values. -/
def matMulM (m n o : ℕ) (x y : List (List α)) : List (List α) :=
  mkMat m o fun i k => ∑ j ∈ Finset.range n, idx2 x i j * idx2 y j k

/-- Transpose of an `m` by `n` row-major matrix. -/
def trM (m n : ℕ) (a : List (List α)) : List (List α) :=
  mkMat n m fun j i => idx2 a i j

/-- Entrywise sum of two `m` by `n` matrices. -/
def addM (m n : ℕ) (a b : List (List α)) : List (List α) :=
  mkMat m n fun i j => idx2 a i j + idx2 b i j

/-- The 2-D buffer stored for `id`, defaulting to the `m` by `n` zero matrix
when the slot is empty. -/
def getD2 (s : Store (Buf α)) (id m n : ℕ) : List (List α) :=
  match s id with
  | some (.d2 a) => a
  | _ => zeros2 m n

/-- The slot for `id` is absent or holds a 2-D buffer. -/
def slotD2 (s : Store (Buf α)) (id : ℕ) : Prop :=
  match s id with
  | some (.d1 _) => False
  | _ => True

/-- The slot for `id` is absent or holds a 1-D buffer. -/
def slotD1 (s : Store (Buf α)) (id : ℕ) : Prop :=
  match s id with
  | some (.d2 _) => False
  | _ => True

/-! ## Data loader (`src/data/data_loader.rs`)

The dataset iterator is a list of remaining samples; the in-place
`batch.shuffle(&mut self.rng)` is modelled by an arbitrary per-call
reordering function drawn from the generator (`shufs k` for the `k`-th call),
constrained in the theorems only by being a permutation, which is the one
property a Fisher-Yates shuffle guarantees for every generator.  The collate
function is left out: the claims concern the composition of the batch handed
to it. -/

/-- `IntoIter::next` (`src/data/data_loader.rs:178-196`): take up to
`batch_size` samples, yield them (shuffled in place when `shuffle` is set)
unless the batch is empty, or partial with `drop_last` set; also returns the
advanced dataset iterator. -/
def dlIntoIterNext (B : ℕ) (shuffle dropLast : Bool) (shuf : List γ → List γ)
    (it : List γ) : Option (List γ) × List γ :=
  let batch := it.take B
  if batch.isEmpty then (none, it.drop B)
  else if batch.length = B ∨ (batch.length ≠ B ∧ ¬dropLast) then
    (some (if shuffle then shuf batch else batch), it.drop B)
  else (none, it.drop B)

/-- `Iter::next` (`src/data/data_loader.rs:262-280`); its body is identical
to `IntoIter::next`. -/
def dlIterNext (B : ℕ) (shuffle dropLast : Bool) (shuf : List γ → List γ)
    (it : List γ) : Option (List γ) × List γ :=
  let batch := it.take B
  if batch.isEmpty then (none, it.drop B)
  else if batch.length = B ∨ (batch.length ≠ B ∧ ¬dropLast) then
    (some (if shuffle then shuf batch else batch), it.drop B)
  else (none, it.drop B)

/-- The batches an iterator yields until its first `None`, driving the given
`next` function; `fuel` bounds the number of calls, `k` counts the calls made
so far (selecting the per-call shuffle). -/
def dlBatchesWith (nextf : (List γ → List γ) → List γ → Option (List γ) × List γ)
    (shufs : ℕ → List γ → List γ) : ℕ → ℕ → List γ → List (List γ)
  | 0, _, _ => []
  | f + 1, k, it =>
    match nextf (shufs k) it with
    | (none, _) => []
    | (some b, rest) => b :: dlBatchesWith nextf shufs f (k + 1) rest

/-- All batches of the consuming iterator (`IterableDataLoader::into_iter`)
over dataset `ds`; `ds.length` calls suffice since every yield consumes at
least one sample. -/
def dlIntoIterBatches (B : ℕ) (shuffle dropLast : Bool)
    (shufs : ℕ → List γ → List γ) (ds : List γ) : List (List γ) :=
  dlBatchesWith (dlIntoIterNext B shuffle dropLast) shufs ds.length 0 ds

/-- All batches of the borrowing iterator (`IterableDataLoader::iter`). -/
def dlIterBatches (B : ℕ) (shuffle dropLast : Bool)
    (shufs : ℕ → List γ → List γ) (ds : List γ) : List (List γ) :=
  dlBatchesWith (dlIterNext B shuffle dropLast) shufs ds.length 0 ds

/-- The 1-D buffer stored for `id`, defaulting to the zero vector of length
`n` when the slot is empty. -/
def getD1 (s : Store (Buf α)) (id n : ℕ) : List α :=
  match s id with
  | some (.d1 v) => v
  | _ => vzeros n

/-! ## Helper lemmas -/

theorem Store.set_self {β : Type} (s : Store β) (id : ℕ) (b : β) :
    s.set id b id = some b := by
  simp [Store.set]

theorem Store.set_ne {β : Type} (s : Store β) (id : ℕ) (b : β) (j : ℕ) (h : j ≠ id) :
    s.set id b j = s j := by
  simp [Store.set, h]

omit [CommRing α] in
theorem getD_map_range {δ : Type} (m i : ℕ) (f : ℕ → δ) (d : δ) :
    (((List.range m).map f).getD i d) = if i < m then f i else d := by
  by_cases h : i < m
  · rw [if_pos h, List.getD_eq_getElem?_getD, List.getElem?_map, List.getElem?_range h]
    rfl
  · rw [if_neg h, List.getD_eq_getElem?_getD, List.getElem?_map,
      List.getElem?_eq_none (by simpa using Nat.le_of_not_lt h)]
    rfl

theorem idx2_mkMat (m o i k : ℕ) (f : ℕ → ℕ → α) :
    idx2 (mkMat m o f) i k = if i < m ∧ k < o then f i k else 0 := by
  unfold idx2 mkMat
  rw [getD_map_range]
  by_cases hi : i < m
  · rw [if_pos hi, getD_map_range]
    by_cases hk : k < o
    · rw [if_pos hk, if_pos ⟨hi, hk⟩]
    · rw [if_neg hk, if_neg (fun h => hk h.2)]
  · rw [if_neg hi, if_neg (fun h => hi h.1)]
    rfl

theorem idx1_mkVec (o k : ℕ) (f : ℕ → α) :
    idx1 (mkVec o f) k = if k < o then f k else 0 := by
  unfold idx1 mkVec
  rw [getD_map_range]

theorem idx2_zeros2 (m n i j : ℕ) : idx2 (zeros2 (α := α) m n) i j = 0 := by
  unfold idx2 zeros2
  simp only [List.getD_eq_getElem?_getD, List.getElem?_replicate]
  by_cases hi : i < m <;> by_cases hj : j < n <;>
    simp [hi, hj, List.getElem?_replicate]

theorem idx1_vzeros (n i : ℕ) : idx1 (vzeros (α := α) n) i = 0 := by
  unfold idx1 vzeros
  simp only [List.getD_eq_getElem?_getD, List.getElem?_replicate]
  by_cases hi : i < n <;> simp [hi]

omit [CommRing α] in
theorem mkMat_congr (m o : ℕ) (f g : ℕ → ℕ → α)
    (h : ∀ i < m, ∀ k < o, f i k = g i k) : mkMat m o f = mkMat m o g := by
  unfold mkMat
  refine List.map_congr_left fun i hi => List.map_congr_left fun k hk => ?_
  exact h i (List.mem_range.mp hi) k (List.mem_range.mp hk)

omit [CommRing α] in
theorem mkVec_congr (o : ℕ) (f g : ℕ → α)
    (h : ∀ k < o, f k = g k) : mkVec o f = mkVec o g := by
  unfold mkVec
  exact List.map_congr_left fun k hk => h k (List.mem_range.mp hk)

theorem zipWith_nested {δ ε ζ : Type} (f : δ → ε → ζ) (h : δ → ι → ε)
    (l : List δ) (l2 : List ι) :
    List.zipWith f l (List.zipWith h l l2) =
      List.zipWith (fun a b => f a (h a b)) l l2 := by
  induction l generalizing l2 with
  | nil => rfl
  | cons a l ih => cases l2 <;> simp [ih]

/-! ## The optimizer claims -/

/-- C3: with Nesterov momentum of coefficient `u` and no weight decay,
`Sgd::gradient` first stores the velocity `v = g + u * v_prev` and then
returns the update `lr * (g + u * v)` elementwise, reusing the
already-updated `v` in the second term. -/
theorem sgd_nesterov_update_formula (o : Sgd) (pid : ℕ) (pdata g : List F32) (u : F32)
    (hm : o.cfg.momentum = some (.Nesterov u)) (hw : o.cfg.weight_decay = none)
    (hg : o.gradients pid = some g) :
    (o.gradient pid pdata).2.velocity pid =
      some (List.zipWith (fun gi vi => fadd32 gi (fmul32 u vi)) g
        ((o.velocity pid).getD (zeros1 pdata.length))) ∧
    (o.gradient pid pdata).1 =
      some (List.zipWith
        (fun gi vi => fmul32 (fadd32 gi (fmul32 u (fadd32 gi (fmul32 u vi)))) o.cfg.lr)
        g ((o.velocity pid).getD (zeros1 pdata.length))) := by
  cases hv : o.velocity pid with
  | none =>
    simp [Sgd.gradient, Store.remove, hg, hm, hw, Store.getOrAlloc, hv,
      Store.set_self, Store.set, zipWith_nested]
  | some v =>
    simp [Sgd.gradient, Store.remove, hg, hm, hw, Store.getOrAlloc, hv,
      Store.set_self, Store.set, zipWith_nested]

/-- C3 witness: the Nesterov formula at a concrete instance. -/
theorem sgd_nesterov_update_formula_witness :
    ((⟨⟨ofInt 1, some (.Nesterov (ofInt 1)), none⟩,
        Store.empty.set 0 [ofInt 2], Store.empty.set 0 [ofInt 3]⟩ : Sgd).gradient
        0 [f32zero]).2.velocity 0 = some [ofInt 5] ∧
    ((⟨⟨ofInt 1, some (.Nesterov (ofInt 1)), none⟩,
        Store.empty.set 0 [ofInt 2], Store.empty.set 0 [ofInt 3]⟩ : Sgd).gradient
        0 [f32zero]).1 = some [ofInt 8] := by
  have h := sgd_nesterov_update_formula
    ⟨⟨ofInt 1, some (.Nesterov (ofInt 1)), none⟩,
      Store.empty.set 0 [ofInt 2], Store.empty.set 0 [ofInt 3]⟩
    0 [f32zero] [ofInt 3] (ofInt 1) rfl rfl rfl
  exact ⟨h.1.trans (by decide), h.2.trans (by decide)⟩

/-- C4: with classic momentum of coefficient `u`, `Sgd::gradient` stores the
velocity `v = g + u * v_prev` and returns the update `lr * v` elementwise;
concretely, the momentum numeric trace of `test_sgd_classic_momentum`
reaches exactly the asserted f32 values after steps 1 and 2. -/
theorem sgd_classic_update_formula_and_trace :
    (∀ (o : Sgd) (pid : ℕ) (pdata g : List F32) (u : F32),
      o.cfg.momentum = some (.Classic u) → o.cfg.weight_decay = none →
      o.gradients pid = some g →
      (o.gradient pid pdata).2.velocity pid =
        some (List.zipWith (fun gi vi => fadd32 gi (fmul32 u vi)) g
          ((o.velocity pid).getD (zeros1 pdata.length))) ∧
      (o.gradient pid pdata).1 =
        some (List.zipWith (fun gi vi => fmul32 (fadd32 gi (fmul32 u vi)) o.cfg.lr)
          g ((o.velocity pid).getD (zeros1 pdata.length)))) ∧
    traceAfter classicCfg 1 = [ofDec 9998 4, ofDec 998 3, ofDec 996 3, ofDec 98 2, ofDec 8 1] ∧
    traceAfter classicCfg 2 =
      [ofDec 99950004 8, ofDec 995 3, ofDec 99 2, ofDec 95000005 8, ofDec 5 1] := by
  refine ⟨fun o pid pdata g u hm hw hg => ?_, by decide, by decide⟩
  cases hv : o.velocity pid with
  | none =>
    simp [Sgd.gradient, Store.remove, hg, hm, hw, Store.getOrAlloc, hv,
      Store.set_self, Store.set, List.map_zipWith]
  | some v =>
    simp [Sgd.gradient, Store.remove, hg, hm, hw, Store.getOrAlloc, hv,
      Store.set_self, Store.set, List.map_zipWith]

/-- C4 witness: the classic-momentum formula at a concrete instance. -/
theorem sgd_classic_update_formula_witness :
    ((⟨⟨ofInt 1, some (.Classic (ofInt 1)), none⟩,
        Store.empty.set 0 [ofInt 2], Store.empty.set 0 [ofInt 3]⟩ : Sgd).gradient
        0 [f32zero]).2.velocity 0 = some [ofInt 5] ∧
    ((⟨⟨ofInt 1, some (.Classic (ofInt 1)), none⟩,
        Store.empty.set 0 [ofInt 2], Store.empty.set 0 [ofInt 3]⟩ : Sgd).gradient
        0 [f32zero]).1 = some [ofInt 5] := by
  have h := sgd_classic_update_formula_and_trace.1
    ⟨⟨ofInt 1, some (.Classic (ofInt 1)), none⟩,
      Store.empty.set 0 [ofInt 2], Store.empty.set 0 [ofInt 3]⟩
    0 [f32zero] [ofInt 3] (ofInt 1) rfl rfl rfl
  exact ⟨h.1.trans (by decide), h.2.trans (by decide)⟩

/-- C5: when weight decay `wd` is configured, for every momentum mode the
update equals the no-decay update plus `wd * parameter_value` elementwise
(applied after the momentum computation, so neither scaled by the learning
rate nor by momentum), and the stored velocity is exactly the no-decay one. -/
theorem sgd_weight_decay_decoupled (o : Sgd) (pid : ℕ) (pdata g : List F32) (wd : F32)
    (hw : o.cfg.weight_decay = some wd) (hg : o.gradients pid = some g) :
    (o.gradient pid pdata).1 =
      (({ o with cfg := { o.cfg with weight_decay := none } } : Sgd).gradient pid pdata).1.map
        (fun upd => List.zipWith (fun ui pi => fadd32 ui (fmul32 wd pi)) upd pdata) ∧
    (o.gradient pid pdata).2.velocity =
      (({ o with cfg := { o.cfg with weight_decay := none } } : Sgd).gradient
        pid pdata).2.velocity := by
  rcases o with ⟨⟨lr, mom, _⟩, vel, grads⟩
  rcases mom with _ | mm
  · simp_all [Sgd.gradient, Store.remove]
  · rcases mm with u | u <;> simp_all [Sgd.gradient, Store.remove]

/-- C5 witness: decoupled weight decay at a concrete instance (no momentum,
learning rate 1, decay 1, parameter value 2, gradient 3: update 5). -/
theorem sgd_weight_decay_decoupled_witness :
    ((⟨⟨ofInt 1, none, some (ofInt 1)⟩, Store.empty,
        Store.empty.set 0 [ofInt 3]⟩ : Sgd).gradient 0 [ofInt 2]).1 = some [ofInt 5] := by
  have h := sgd_weight_decay_decoupled
    ⟨⟨ofInt 1, none, some (ofInt 1)⟩, Store.empty, Store.empty.set 0 [ofInt 3]⟩
    0 [ofInt 2] [ofInt 3] (ofInt 1) rfl rfl
  exact h.1.trans (by decide)

/-- C9: with no momentum and no weight decay the update is `lr * g`
elementwise and `update` subtracts it from the parameter value in place; and
the `test_perfect_sgd` scenario converges exactly to all-ones in 5 steps. -/
theorem sgd_plain_update_and_perfect_trace :
    (∀ (o : Sgd) (pid : ℕ) (pdata g : List F32) (grads : Store (List F32)),
      o.cfg.momentum = none → o.cfg.weight_decay = none →
      grads pid = some g →
      (Sgd.update o [(pid, pdata)] grads).1 =
        [(pid, List.zipWith fsub32 pdata (g.map (fun gi => fmul32 gi o.cfg.lr)))]) ∧
    perfectAfter 5 = List.replicate 5 (ofInt 1) := by
  refine ⟨fun o pid pdata g grads hm hw hg => ?_, by decide⟩
  simp [Sgd.update, sgdUpdateParams, Sgd.gradient, Store.remove, hg, hm, hw]

/-- C9 witness: a plain-SGD update at a concrete instance. -/
theorem sgd_plain_update_witness :
    (Sgd.update ⟨⟨ofInt 1, none, none⟩, Store.empty, Store.empty⟩
      [(0, [ofInt 2])] (Store.empty.set 0 [ofInt 3])).1 = [(0, [fsub32 (ofInt 2) (ofInt 3)])] := by
  have h := sgd_plain_update_and_perfect_trace.1
    ⟨⟨ofInt 1, none, none⟩, Store.empty, Store.empty⟩ 0 [ofInt 2] [ofInt 3]
    (Store.empty.set 0 [ofInt 3]) rfl rfl rfl
  exact h.trans (by decide)

theorem Sgd.gradient_absent (o : Sgd) (pid : ℕ) (pdata : List F32)
    (h : o.gradients pid = none) : o.gradient pid pdata = (none, o) := by
  simp [Sgd.gradient, Store.remove, h]

theorem Sgd.gradient_present (o : Sgd) (pid : ℕ) (pdata g : List F32)
    (h : o.gradients pid = some g) : ∃ u, (o.gradient pid pdata).1 = some u := by
  rcases o with ⟨⟨lr, mom, wd⟩, vel, grads⟩
  dsimp only at h
  rcases mom with _ | (u | u) <;> rcases wd with _ | w <;>
    simp [Sgd.gradient, Store.remove, h]

theorem Sgd.gradient_frame (o : Sgd) (pid : ℕ) (pdata : List F32) (q : ℕ) (hq : q ≠ pid) :
    ((o.gradient pid pdata).2).gradients q = o.gradients q ∧
    ((o.gradient pid pdata).2).velocity q = o.velocity q ∧
    ((o.gradient pid pdata).2).cfg = o.cfg := by
  rcases o with ⟨⟨lr, mom, wd⟩, vel, grads⟩
  cases hg : grads pid with
  | none => simp [Sgd.gradient, Store.remove, hg]
  | some g =>
    rcases mom with _ | (u | u) <;> rcases wd with _ | w <;>
      cases hv : vel pid <;>
      simp [Sgd.gradient, Store.remove, Store.getOrAlloc, Store.del, Store.set, hg, hv, hq]

theorem Sgd.gradient_cfg (o : Sgd) (pid : ℕ) (pdata : List F32) :
    ((o.gradient pid pdata).2).cfg = o.cfg := by
  rcases o with ⟨⟨lr, mom, wd⟩, vel, grads⟩
  cases hg : grads pid with
  | none => simp [Sgd.gradient, Store.remove, hg]
  | some g =>
    rcases mom with _ | (u | u) <;> rcases wd with _ | w <;>
      cases hv : vel pid <;>
      simp [Sgd.gradient, Store.remove, Store.getOrAlloc, hg, hv]

theorem Sgd.gradient_fst_congr (o o' : Sgd) (pid : ℕ) (pdata : List F32)
    (hc : o.cfg = o'.cfg) (hgr : o.gradients pid = o'.gradients pid)
    (hv : o.velocity pid = o'.velocity pid) :
    (o.gradient pid pdata).1 = (o'.gradient pid pdata).1 := by
  rcases o with ⟨cfg1, vel1, grads1⟩
  rcases o' with ⟨cfg2, vel2, grads2⟩
  dsimp only at hc hgr hv
  subst hc
  cases hg : grads2 pid with
  | none => simp [Sgd.gradient, Store.remove, hg, hgr.trans hg]
  | some g =>
    rcases cfg1 with ⟨lr, mom, wd⟩
    rcases mom with _ | (u | u) <;> rcases wd with _ | w <;>
      cases hv2 : vel2 pid <;>
      simp [Sgd.gradient, Store.remove, Store.getOrAlloc, hg, hgr.trans hg,
        hv.trans hv2, hv2]

theorem sgdUpdateParams_spec (params : List (ℕ × List F32)) :
    ∀ o oRef : Sgd, o.cfg = oRef.cfg →
    (∀ q ∈ params.map Prod.fst, o.gradients q = oRef.gradients q ∧
      o.velocity q = oRef.velocity q) →
    (params.map Prod.fst).Nodup →
    (sgdUpdateParams o params).1 =
      params.map (fun p =>
        match (oRef.gradient p.1 p.2).1 with
        | none => p
        | some u => (p.1, List.zipWith fsub32 p.2 u)) ∧
    (sgdUpdateParams o params).2.1 =
      (params.filter (fun p => (oRef.gradients p.1).isNone)).map Prod.fst := by
  induction params with
  | nil => intro o oRef _ _ _; simp [sgdUpdateParams]
  | cons hd tl ih =>
    intro o oRef hc hagree hnd
    obtain ⟨pid, pd⟩ := hd
    have hhd := hagree pid (by simp)
    have hnd2 : pid ∉ tl.map Prod.fst ∧ (tl.map Prod.fst).Nodup := by
      rw [List.map_cons, List.nodup_cons] at hnd
      exact hnd
    have htl : ∀ q ∈ tl.map Prod.fst, q ≠ pid := by
      intro q hq
      exact fun he => hnd2.1 (he ▸ hq)
    cases hg : o.gradients pid with
    | none =>
      have hrefg : oRef.gradients pid = none := hhd.1.symm.trans hg
      have hrec := ih o oRef hc
        (fun q hq => hagree q (by simp [hq])) hnd2.2
      simp only [sgdUpdateParams, Sgd.gradient_absent o pid pd hg]
      constructor
      · simp only [List.map_cons, Sgd.gradient_absent oRef pid pd hrefg]
        exact congrArg _ hrec.1
      · simp [hrefg, hrec.2]
    | some g =>
      have hrefg : oRef.gradients pid = some g := hhd.1.symm.trans hg
      obtain ⟨u, hu⟩ := Sgd.gradient_present o pid pd g hg
      have hcong := Sgd.gradient_fst_congr o oRef pid pd hc hhd.1 hhd.2
      have hframe := fun q (hq : q ≠ pid) => Sgd.gradient_frame o pid pd q hq
      have hrec := ih (o.gradient pid pd).2 oRef
        ((Sgd.gradient_cfg o pid pd).trans hc)
        (fun q hq => by
          have hne := htl q hq
          exact ⟨(hframe q hne).1.trans (hagree q (by simp [hq])).1,
            (hframe q hne).2.1.trans (hagree q (by simp [hq])).2⟩)
        hnd2.2
      rcases hG : Sgd.gradient o pid pd with ⟨u1, o1⟩
      have hu1 : u1 = some u := by rw [← hu, hG]
      subst hu1
      simp only [sgdUpdateParams, hG]
      constructor
      · simp only [List.map_cons]
        rw [← hcong, hu]
        refine congrArg _ ?_
        have : o1 = (Sgd.gradient o pid pd).2 := by rw [hG]
        rw [this]
        exact hrec.1
      · simp only [List.filter_cons, hrefg]
        have : o1 = (Sgd.gradient o pid pd).2 := by rw [hG]
        simpa [Option.isNone] using (this ▸ hrec.2)

/-- C6: in `Sgd::update` over parameters with pairwise distinct identities,
every parameter whose identity is absent from the supplied gradient store is
left unmodified, every present parameter receives its update (computed from
its own gradient and velocity, retained even when the call errors), and the
call returns the recoverable unused-parameters error naming exactly the
absent parameters in traversal order precisely when at least one exists,
succeeding otherwise. -/
theorem sgd_update_unused_params (o : Sgd) (params : List (ℕ × List F32))
    (grads : Store (List F32)) (hnd : (params.map Prod.fst).Nodup) :
    (Sgd.update o params grads).1 =
      params.map (fun p =>
        match (({ o with gradients := grads } : Sgd).gradient p.1 p.2).1 with
        | none => p
        | some u => (p.1, List.zipWith fsub32 p.2 u)) ∧
    (Sgd.update o params grads).2.1 =
      (if (params.filter (fun p => (grads p.1).isNone)).isEmpty then Except.ok ()
       else Except.error
         ((params.filter (fun p => (grads p.1).isNone)).map Prod.fst)) := by
  have h := sgdUpdateParams_spec params { o with gradients := grads }
    { o with gradients := grads } rfl (fun q _ => ⟨rfl, rfl⟩) hnd
  refine ⟨h.1, ?_⟩
  have hresult :
      (Sgd.update o params grads).2.1 =
        if (sgdUpdateParams { o with gradients := grads } params).2.1.isEmpty
        then Except.ok ()
        else Except.error (sgdUpdateParams { o with gradients := grads } params).2.1 := by
    unfold Sgd.update
    rcases hps : sgdUpdateParams { o with gradients := grads } params with ⟨ps, unused, o1⟩
    simp [hps]
  rw [hresult, h.2]
  have hmape : ∀ l : List (ℕ × List F32), (List.map Prod.fst l).isEmpty = l.isEmpty := by
    intro l; cases l <;> rfl
  simp only [hmape]

omit [CommRing α] in
theorem getOrAlloc_eq {β : Type} (s : Store β) (id : ℕ) (z : β) :
    s.getOrAlloc id z = ((s id).getD z, s.set id ((s id).getD z)) := by
  unfold Store.getOrAlloc
  cases hs : s id with
  | none => simp [hs]
  | some b =>
    simp only [hs, Option.getD_some]
    refine Prod.ext rfl ?_
    funext j
    by_cases hj : j = id <;> simp [Store.set, hj, hs]

omit [CommRing α] in
theorem mutAndRef_eq {β : Type} (s : Store β) (ida : ℕ) (za : β) (idb : ℕ) (zb : β)
    (hne : ida ≠ idb) :
    s.mutAndRef ida za idb zb =
      some ((s ida).getD za, (s idb).getD zb,
        (s.set ida ((s ida).getD za)).set idb ((s idb).getD zb)) := by
  unfold Store.mutAndRef
  rw [if_neg hne, getOrAlloc_eq]
  dsimp only
  rw [getOrAlloc_eq, Store.set_ne _ _ _ _ (Ne.symm hne)]

theorem getD_buf_d2 (s : Store (Buf α)) (id m n : ℕ) (h : slotD2 s id) :
    (s id).getD (Buf.d2 (zeros2 m n)) = Buf.d2 (getD2 s id m n) := by
  unfold getD2
  cases hs : s id with
  | none => simp
  | some b =>
    cases b with
    | d1 v => exact absurd h (by simp [slotD2, hs])
    | d2 a => simp

theorem getD_buf_d1 (s : Store (Buf α)) (id n : ℕ) (h : slotD1 s id) :
    (s id).getD (Buf.d1 (vzeros n)) = Buf.d1 (getD1 s id n) := by
  unfold getD1
  cases hs : s id with
  | none => simp
  | some b =>
    cases b with
    | d2 a => exact absurd h (by simp [slotD1, hs])
    | d1 v => simp

omit [CommRing α] in
theorem slotD2_congr (s s' : Store (Buf α)) (id : ℕ) (h : s id = s' id) :
    slotD2 s id ↔ slotD2 s' id := by
  unfold slotD2
  rw [h]

omit [CommRing α] in
theorem slotD1_congr (s s' : Store (Buf α)) (id : ℕ) (h : s id = s' id) :
    slotD1 s id ↔ slotD1 s' id := by
  unfold slotD1
  rw [h]

theorem getD2_congr (s s' : Store (Buf α)) (id m n : ℕ) (h : s id = s' id) :
    getD2 s id m n = getD2 s' id m n := by
  unfold getD2
  rw [h]

theorem getD1_congr (s s' : Store (Buf α)) (id n : ℕ) (h : s id = s' id) :
    getD1 s id n = getD1 s' id n := by
  unfold getD1
  rw [h]

/-- C6 witness: a two-parameter model where only the second parameter has a
gradient: the first is unmodified and reported, the second updated. -/
theorem sgd_update_unused_params_witness :
    (Sgd.update ⟨⟨ofInt 1, none, none⟩, Store.empty, Store.empty⟩
        [(0, [ofInt 7]), (1, [ofInt 2])] (Store.empty.set 1 [ofInt 3])).1 =
      [(0, [ofInt 7]), (1, [fsub32 (ofInt 2) (ofInt 3)])] ∧
    (Sgd.update ⟨⟨ofInt 1, none, none⟩, Store.empty, Store.empty⟩
        [(0, [ofInt 7]), (1, [ofInt 2])] (Store.empty.set 1 [ofInt 3])).2.1 =
      Except.error [0] := by
  have h := sgd_update_unused_params ⟨⟨ofInt 1, none, none⟩, Store.empty, Store.empty⟩
    [(0, [ofInt 7]), (1, [ofInt 2])] (Store.empty.set 1 [ofInt 3]) (by decide)
  exact ⟨h.1.trans (by decide), h.2.trans (by rfl)⟩

theorem getD2_some (s : Store (Buf α)) (id m n : ℕ) (a : List (List α))
    (h : s id = some (.d2 a)) : getD2 s id m n = a := by
  unfold getD2; rw [h]

theorem matmulBackward_eq (M N O : ℕ) (lhsData rhsData : List (List α))
    (lhsId rhsId outId : ℕ) (grads : Store (Buf α))
    (h1 : lhsId ≠ outId) (h2 : rhsId ≠ outId) (h3 : lhsId ≠ rhsId)
    (hL : slotD2 grads lhsId) (hR : slotD2 grads rhsId) (hO : slotD2 grads outId) :
    ∃ s1, matmulBackward M N O lhsData rhsData lhsId rhsId outId grads = some s1 ∧
      s1 lhsId = some (.d2 (matmat_mul_into_yt M O N (getD2 grads outId M O) rhsData
        (getD2 grads lhsId M N))) ∧
      s1 rhsId = some (.d2 (matmat_mul_into_xt N M O lhsData (getD2 grads outId M O)
        (getD2 grads rhsId N O))) ∧
      s1 outId = some (.d2 (getD2 grads outId M O)) ∧
      ∀ j, j ≠ lhsId → j ≠ rhsId → j ≠ outId → s1 j = grads j := by
  unfold matmulBackward
  rw [mutAndRef_eq _ _ _ _ _ h1, getD_buf_d2 _ _ _ _ hL, getD_buf_d2 _ _ _ _ hO]
  dsimp only [Bind.bind, Option.bind, Buf.asD2]
  rw [mutAndRef_eq _ _ _ _ _ h2]
  simp only [Store.set, Ne.symm h3, Ne.symm h1, Ne.symm h2, h1, h2, h3,
    if_true, if_false, ite_false, ite_true, if_neg, reduceIte]
  rw [getD_buf_d2 _ _ _ _ hR]
  dsimp only [Option.getD_some]
  refine ⟨_, rfl, ?_, ?_, ?_, ?_⟩
  · simp [Store.set, Ne.symm h3, Ne.symm h1, Ne.symm h2, h1, h2, h3]
  · simp [Store.set]
  · simp [Store.set, Ne.symm h3, Ne.symm h1, Ne.symm h2, h1, h2, h3]
  · intro j hj1 hj2 hj3
    simp [Store.set, hj1, hj2, hj3]

theorem matmulTransposeBackward_eq (M N O : ℕ) (lhsData rhs_tData : List (List α))
    (lhsId rhsId outId : ℕ) (grads : Store (Buf α))
    (h1 : lhsId ≠ outId) (h2 : rhsId ≠ outId) (h3 : lhsId ≠ rhsId)
    (hL : slotD2 grads lhsId) (hR : slotD2 grads rhsId) (hO : slotD2 grads outId) :
    ∃ s1, matmulTransposeBackward M N O lhsData rhs_tData lhsId rhsId outId grads = some s1 ∧
      s1 lhsId = some (.d2 (matmat_mul_into M O N (getD2 grads outId M O) rhs_tData
        (getD2 grads lhsId M N))) ∧
      s1 rhsId = some (.d2 (matmat_mul_into_xtzt N M O lhsData (getD2 grads outId M O)
        (getD2 grads rhsId O N))) ∧
      s1 outId = some (.d2 (getD2 grads outId M O)) ∧
      ∀ j, j ≠ lhsId → j ≠ rhsId → j ≠ outId → s1 j = grads j := by
  unfold matmulTransposeBackward
  rw [mutAndRef_eq _ _ _ _ _ h1, getD_buf_d2 _ _ _ _ hL, getD_buf_d2 _ _ _ _ hO]
  dsimp only [Bind.bind, Option.bind, Buf.asD2]
  rw [mutAndRef_eq _ _ _ _ _ h2]
  simp only [Store.set, Ne.symm h3, Ne.symm h1, Ne.symm h2, h1, h2, h3,
    if_true, if_false, ite_false, ite_true, if_neg, reduceIte]
  rw [getD_buf_d2 _ _ _ _ hR]
  dsimp only [Option.getD_some]
  refine ⟨_, rfl, ?_, ?_, ?_, ?_⟩
  · simp [Store.set, Ne.symm h3, Ne.symm h1, Ne.symm h2, h1, h2, h3]
  · simp [Store.set]
  · simp [Store.set, Ne.symm h3, Ne.symm h1, Ne.symm h2, h1, h2, h3]
  · intro j hj1 hj2 hj3
    simp [Store.set, hj1, hj2, hj3]

theorem vecmatBackward_eq (N O : ℕ) (lhsData : List α) (rhsData : List (List α))
    (lhsId rhsId outId : ℕ) (grads : Store (Buf α))
    (h1 : lhsId ≠ outId) (h2 : rhsId ≠ outId) (h3 : lhsId ≠ rhsId)
    (hL : slotD1 grads lhsId) (hR : slotD2 grads rhsId) (hO : slotD1 grads outId) :
    ∃ s1, vecmatBackward N O lhsData rhsData lhsId rhsId outId grads = some s1 ∧
      s1 lhsId = some (.d1 (vecmat_mul_into_yt O N (getD1 grads outId O) rhsData
        (getD1 grads lhsId N))) ∧
      s1 rhsId = some (.d2 (vecvec_mul_into N O lhsData (getD1 grads outId O)
        (getD2 grads rhsId N O))) ∧
      s1 outId = some (.d1 (getD1 grads outId O)) ∧
      ∀ j, j ≠ lhsId → j ≠ rhsId → j ≠ outId → s1 j = grads j := by
  unfold vecmatBackward
  rw [mutAndRef_eq _ _ _ _ _ h1, getD_buf_d1 _ _ _ hL, getD_buf_d1 _ _ _ hO]
  dsimp only [Bind.bind, Option.bind, Buf.asD1, Buf.asD2]
  rw [mutAndRef_eq _ _ _ _ _ h2]
  simp only [Store.set, Ne.symm h3, Ne.symm h1, Ne.symm h2, h1, h2, h3,
    if_true, if_false, ite_false, ite_true, if_neg, reduceIte]
  rw [getD_buf_d2 _ _ _ _ hR]
  dsimp only [Option.getD_some]
  refine ⟨_, rfl, ?_, ?_, ?_, ?_⟩
  · simp [Store.set, Ne.symm h3, Ne.symm h1, Ne.symm h2, h1, h2, h3]
  · simp [Store.set]
  · simp [Store.set, Ne.symm h3, Ne.symm h1, Ne.symm h2, h1, h2, h3]
  · intro j hj1 hj2 hj3
    simp [Store.set, hj1, hj2, hj3]

theorem vecmatTransposeBackward_eq (N O : ℕ) (lhsData : List α) (rhs_tData : List (List α))
    (lhsId rhsId outId : ℕ) (grads : Store (Buf α))
    (h1 : lhsId ≠ outId) (h2 : rhsId ≠ outId) (h3 : lhsId ≠ rhsId)
    (hL : slotD1 grads lhsId) (hR : slotD2 grads rhsId) (hO : slotD1 grads outId) :
    ∃ s1, vecmatTransposeBackward N O lhsData rhs_tData lhsId rhsId outId grads = some s1 ∧
      s1 lhsId = some (.d1 (vecmat_mul_into O N (getD1 grads outId O) rhs_tData
        (getD1 grads lhsId N))) ∧
      s1 rhsId = some (.d2 (vecvec_mul_into O N (getD1 grads outId O) lhsData
        (getD2 grads rhsId O N))) ∧
      s1 outId = some (.d1 (getD1 grads outId O)) ∧
      ∀ j, j ≠ lhsId → j ≠ rhsId → j ≠ outId → s1 j = grads j := by
  unfold vecmatTransposeBackward
  rw [mutAndRef_eq _ _ _ _ _ h1, getD_buf_d1 _ _ _ hL, getD_buf_d1 _ _ _ hO]
  dsimp only [Bind.bind, Option.bind, Buf.asD1, Buf.asD2]
  rw [mutAndRef_eq _ _ _ _ _ h2]
  simp only [Store.set, Ne.symm h3, Ne.symm h1, Ne.symm h2, h1, h2, h3,
    if_true, if_false, ite_false, ite_true, if_neg, reduceIte]
  rw [getD_buf_d2 _ _ _ _ hR]
  dsimp only [Option.getD_some]
  refine ⟨_, rfl, ?_, ?_, ?_, ?_⟩
  · simp [Store.set, Ne.symm h3, Ne.symm h1, Ne.symm h2, h1, h2, h3]
  · simp [Store.set]
  · simp [Store.set, Ne.symm h3, Ne.symm h1, Ne.symm h2, h1, h2, h3]
  · intro j hj1 hj2 hj3
    simp [Store.set, hj1, hj2, hj3]

theorem matmulBackward_isSome (M N O : ℕ) (lhsData rhsData : List (List α))
    (lhsId rhsId outId : ℕ) (grads : Store (Buf α))
    (h1 : lhsId ≠ outId) (h2 : rhsId ≠ outId)
    (hL : slotD2 grads lhsId) (hR : slotD2 grads rhsId) (hO : slotD2 grads outId) :
    (matmulBackward M N O lhsData rhsData lhsId rhsId outId grads).isSome := by
  by_cases h3 : lhsId = rhsId
  · subst h3
    unfold matmulBackward
    rw [mutAndRef_eq _ _ _ _ _ h1, getD_buf_d2 _ _ _ _ hL, getD_buf_d2 _ _ _ _ hO]
    dsimp only [Bind.bind, Option.bind, Buf.asD2]
    rw [mutAndRef_eq _ _ _ _ _ h2]
    simp [Store.set, Ne.symm h1, h1]
  · obtain ⟨s1, hs1, -⟩ :=
      matmulBackward_eq M N O lhsData rhsData lhsId rhsId outId grads h1 h2 h3 hL hR hO
    rw [hs1]
    rfl

theorem matmulTransposeBackward_isSome (M N O : ℕ) (lhsData rhs_tData : List (List α))
    (lhsId rhsId outId : ℕ) (grads : Store (Buf α))
    (h1 : lhsId ≠ outId) (h2 : rhsId ≠ outId)
    (hL : slotD2 grads lhsId) (hR : slotD2 grads rhsId) (hO : slotD2 grads outId) :
    (matmulTransposeBackward M N O lhsData rhs_tData lhsId rhsId outId grads).isSome := by
  by_cases h3 : lhsId = rhsId
  · subst h3
    unfold matmulTransposeBackward
    rw [mutAndRef_eq _ _ _ _ _ h1, getD_buf_d2 _ _ _ _ hL, getD_buf_d2 _ _ _ _ hO]
    dsimp only [Bind.bind, Option.bind, Buf.asD2]
    rw [mutAndRef_eq _ _ _ _ _ h2]
    simp [Store.set, Ne.symm h1, h1]
  · obtain ⟨s1, hs1, -⟩ :=
      matmulTransposeBackward_eq M N O lhsData rhs_tData lhsId rhsId outId grads h1 h2 h3 hL hR hO
    rw [hs1]
    rfl

theorem idx2_trM (m n i j : ℕ) (a : List (List α)) (hi : i < n) (hj : j < m) :
    idx2 (trM m n a) i j = idx2 a j i := by
  rw [trM, idx2_mkMat, if_pos ⟨hi, hj⟩]

theorem matmat_mul_into_eq (M N O : ℕ) (x y out : List (List α)) :
    matmat_mul_into M N O x y out = addM M O out (matMulM M N O x y) := by
  unfold matmat_mul_into addM matMulM
  refine mkMat_congr M O _ _ fun i hi k hk => ?_
  rw [idx2_mkMat, if_pos ⟨hi, hk⟩]

theorem matmat_mul_into_yt_eq (M N O : ℕ) (x y_t out : List (List α)) :
    matmat_mul_into_yt M N O x y_t out = addM M O out (matMulM M N O x (trM O N y_t)) := by
  unfold matmat_mul_into_yt addM matMulM
  refine mkMat_congr M O _ _ fun i hi k hk => ?_
  rw [idx2_mkMat, if_pos ⟨hi, hk⟩]
  refine congrArg _ (Finset.sum_congr rfl fun j hj => ?_)
  rw [idx2_trM _ _ _ _ _ (List.mem_range.mp hj) hk]

theorem matmat_mul_into_xt_eq (M N O : ℕ) (x_t y out : List (List α)) :
    matmat_mul_into_xt M N O x_t y out = addM M O out (matMulM M N O (trM N M x_t) y) := by
  unfold matmat_mul_into_xt addM matMulM
  refine mkMat_congr M O _ _ fun i hi k hk => ?_
  rw [idx2_mkMat, if_pos ⟨hi, hk⟩]
  refine congrArg _ (Finset.sum_congr rfl fun j hj => ?_)
  rw [idx2_trM _ _ _ _ _ hi (List.mem_range.mp hj)]

theorem matmat_mul_into_xtzt_eq (M N O : ℕ) (x_t y out_t : List (List α)) :
    matmat_mul_into_xtzt M N O x_t y out_t =
      addM O M out_t (trM M O (matMulM M N O (trM N M x_t) y)) := by
  unfold matmat_mul_into_xtzt addM
  refine mkMat_congr O M _ _ fun k hk i hi => ?_
  rw [idx2_trM _ _ _ _ _ hk hi]
  unfold matMulM
  rw [idx2_mkMat, if_pos ⟨hi, hk⟩]
  refine congrArg _ (Finset.sum_congr rfl fun j hj => ?_)
  rw [idx2_trM _ _ _ _ _ hi (List.mem_range.mp hj)]

/-- C1: the backward operation recorded by `matmul` reads the output's
gradient `G` from the store and accumulates (adds into the existing buffer)
`G * rhs-transposed` into `lhs`'s slot and `lhs-transposed * G` into `rhs`'s
slot, computed from the `rhs` values snapshotted at forward time, leaving the
output slot and every other slot unchanged. -/
theorem matmul_backward_accumulates (M N O : ℕ) (lhsData rhsData : List (List α))
    (lhsId rhsId outId : ℕ) (grads : Store (Buf α))
    (h1 : lhsId ≠ outId) (h2 : rhsId ≠ outId) (h3 : lhsId ≠ rhsId)
    (hL : slotD2 grads lhsId) (hR : slotD2 grads rhsId) (hO : slotD2 grads outId) :
    ∃ s1, matmulBackward M N O lhsData rhsData lhsId rhsId outId grads = some s1 ∧
      s1 lhsId = some (.d2 (addM M N (getD2 grads lhsId M N)
        (matMulM M O N (getD2 grads outId M O) (trM N O rhsData)))) ∧
      s1 rhsId = some (.d2 (addM N O (getD2 grads rhsId N O)
        (matMulM N M O (trM M N lhsData) (getD2 grads outId M O)))) ∧
      s1 outId = some (.d2 (getD2 grads outId M O)) ∧
      ∀ j, j ≠ lhsId → j ≠ rhsId → j ≠ outId → s1 j = grads j := by
  obtain ⟨s1, he, hl, hr, ho, hother⟩ :=
    matmulBackward_eq M N O lhsData rhsData lhsId rhsId outId grads h1 h2 h3 hL hR hO
  refine ⟨s1, he, ?_, ?_, ho, hother⟩
  · rw [hl, matmat_mul_into_yt_eq]
  · rw [hr, matmat_mul_into_xt_eq]

/-- C1 witness: the matmul backward accumulation at concrete 1x1 data. -/
theorem matmul_backward_accumulates_witness :
    (matmulBackward (α := ℤ) 1 1 1 [[3]] [[5]] 0 1 2
        (Store.empty.set 2 (Buf.d2 [[2]]))).map (fun s => (s 0, s 1)) =
      some (some (Buf.d2 [[10]]), some (Buf.d2 [[6]])) := by
  obtain ⟨s1, he, hl, hr, -⟩ := matmul_backward_accumulates (α := ℤ) 1 1 1 [[3]] [[5]] 0 1 2
    (Store.empty.set 2 (Buf.d2 [[2]]))
    (by decide) (by decide) (by decide) trivial trivial trivial
  rw [he]
  dsimp only [Option.map]
  rw [hl, hr]
  decide

/-- C2 (corrected): `matmul(A, B)` and `matmul_transpose(A, B-transposed)`
have elementwise-equal forward values, their backward passes under the same
seed gradient write identical gradient buffers for `A`, and the buffer
recorded for the transposed second operand is the TRANSPOSE of the buffer
`matmul` records for `B` (for non-square shapes even its dimensions differ,
so the literal buffers are not identical). -/
theorem matmul_transpose_duality (M N O : ℕ) (A B G : List (List α))
    (lhsId rhsId outId : ℕ) (grads : Store (Buf α))
    (h1 : lhsId ≠ outId) (h2 : rhsId ≠ outId) (h3 : lhsId ≠ rhsId)
    (hLa : grads lhsId = none) (hRa : grads rhsId = none)
    (hOg : grads outId = some (.d2 G)) :
    matmulForward M N O A B = matmulTransposeForward M N O A (trM N O B) ∧
    ∃ s1 s2,
      matmulBackward M N O A B lhsId rhsId outId grads = some s1 ∧
      matmulTransposeBackward M N O A (trM N O B) lhsId rhsId outId grads = some s2 ∧
      s1 lhsId = s2 lhsId ∧
      s1 rhsId = some (.d2 (addM N O (zeros2 N O) (matMulM N M O (trM M N A) G))) ∧
      s2 rhsId = some (.d2 (addM O N (zeros2 O N)
        (trM N O (matMulM N M O (trM M N A) G)))) := by
  have hL : slotD2 grads lhsId := by unfold slotD2; rw [hLa]; trivial
  have hR : slotD2 grads rhsId := by unfold slotD2; rw [hRa]; trivial
  have hO : slotD2 grads outId := by unfold slotD2; rw [hOg]; trivial
  have hgl : ∀ m n : ℕ, getD2 grads lhsId m n = zeros2 m n := by
    intro m n; unfold getD2; rw [hLa]
  have hgr : ∀ m n : ℕ, getD2 grads rhsId m n = zeros2 m n := by
    intro m n; unfold getD2; rw [hRa]
  have hgo : ∀ m n : ℕ, getD2 grads outId m n = G := by
    intro m n; exact getD2_some _ _ _ _ _ hOg
  constructor
  · unfold matmulForward matmulTransposeForward matmat_mul_into matmat_mul_into_yt
    refine mkMat_congr M O _ _ fun i hi k hk => ?_
    refine congrArg _ (Finset.sum_congr rfl fun j hj => ?_)
    rw [idx2_trM N O k j B hk (List.mem_range.mp hj)]
  · obtain ⟨s1, he1, hl1, hr1, -, -⟩ :=
      matmulBackward_eq M N O A B lhsId rhsId outId grads h1 h2 h3 hL hR hO
    obtain ⟨s2, he2, hl2, hr2, -, -⟩ :=
      matmulTransposeBackward_eq M N O A (trM N O B) lhsId rhsId outId grads h1 h2 h3 hL hR hO
    refine ⟨s1, s2, he1, he2, ?_, ?_, ?_⟩
    · rw [hl1, hl2, hgl, hgo, matmat_mul_into_yt_eq, matmat_mul_into_eq]
    · rw [hr1, hgr, hgo, matmat_mul_into_xt_eq]
    · rw [hr2, hgr, hgo, matmat_mul_into_xtzt_eq]

/-- C2 counterexample: with `A` 1x1, `B` 1x2 and seed gradient `G = [[1,2]]`,
`matmul`'s backward stores `[[1,2]]` (a 1x2 buffer) for the second operand
while `matmul_transpose`'s backward stores the 2x1 transpose `[[1],[2]]`: the
two runs do not produce identical buffers for the second operand. -/
theorem matmul_transpose_buffer_counterexample :
    (matmulBackward (α := ℤ) 1 1 2 [[1]] [[1,2]] 0 1 2
        (Store.empty.set 2 (Buf.d2 [[1,2]]))).map (fun s => s 1) =
      some (some (Buf.d2 [[1,2]])) ∧
    (matmulTransposeBackward (α := ℤ) 1 1 2 [[1]] (trM 1 2 [[1,2]]) 0 1 2
        (Store.empty.set 2 (Buf.d2 [[1,2]]))).map (fun s => s 1) =
      some (some (Buf.d2 [[1],[2]])) ∧
    some (some (Buf.d2 ([[1,2]] : List (List ℤ)))) ≠
      some (some (Buf.d2 ([[1],[2]] : List (List ℤ)))) := by
  refine ⟨by decide, by decide, by decide⟩

/-- C2 witness: the forward duality at concrete data. -/
theorem matmul_transpose_duality_witness :
    matmulForward (α := ℤ) 1 1 2 [[1]] [[1,2]] =
      matmulTransposeForward 1 1 2 [[1]] (trM 1 2 [[1,2]]) :=
  (matmul_transpose_duality (α := ℤ) 1 1 2 [[1]] [[1,2]] [[1,2]] 0 1 2
    (Store.empty.set 2 (Buf.d2 [[1,2]]))
    (by decide) (by decide) (by decide) rfl rfl rfl).1

/-- C7: in the backward operations of `matmul`, `matmul_transpose`,
`vecmat_mul` and `vecmat_mul_transpose`, every dual mutable/immutable fetch
pairs an input's identity with the output's identity, so whenever the output
id differs from both operand ids (and, for the vector ops, the two operands
are distinct tensors of different ranks) the forbidden same-identity dual
fetch never occurs: the backward replay succeeds. -/
theorem backward_dual_fetch_safe (lhsId rhsId outId : ℕ)
    (h1 : lhsId ≠ outId) (h2 : rhsId ≠ outId) :
    (∀ (M N O : ℕ) (lhsData rhsData : List (List α)) (grads : Store (Buf α)),
      slotD2 grads lhsId → slotD2 grads rhsId → slotD2 grads outId →
      (matmulBackward M N O lhsData rhsData lhsId rhsId outId grads).isSome ∧
      (matmulTransposeBackward M N O lhsData rhsData lhsId rhsId outId grads).isSome) ∧
    (lhsId ≠ rhsId →
      ∀ (N O : ℕ) (lhsData : List α) (rhsData : List (List α)) (grads : Store (Buf α)),
      slotD1 grads lhsId → slotD2 grads rhsId → slotD1 grads outId →
      (vecmatBackward N O lhsData rhsData lhsId rhsId outId grads).isSome ∧
      (vecmatTransposeBackward N O lhsData rhsData lhsId rhsId outId grads).isSome) := by
  constructor
  · intro M N O lhsData rhsData grads hL hR hO
    exact ⟨matmulBackward_isSome M N O lhsData rhsData lhsId rhsId outId grads h1 h2 hL hR hO,
      matmulTransposeBackward_isSome M N O lhsData rhsData lhsId rhsId outId grads h1 h2 hL hR hO⟩
  · intro h3 N O lhsData rhsData grads hL hR hO
    obtain ⟨s1, he1, -⟩ :=
      vecmatBackward_eq N O lhsData rhsData lhsId rhsId outId grads h1 h2 h3 hL hR hO
    obtain ⟨s2, he2, -⟩ :=
      vecmatTransposeBackward_eq N O lhsData rhsData lhsId rhsId outId grads h1 h2 h3 hL hR hO
    rw [he1, he2]
    exact ⟨rfl, rfl⟩

/-- C7 witness: all four backward replays succeed at concrete data and ids. -/
theorem backward_dual_fetch_safe_witness :
    (matmulBackward (α := ℤ) 1 1 1 [[1]] [[1]] 0 1 2 Store.empty).isSome ∧
    (vecmatBackward (α := ℤ) 1 1 [1] [[1]] 0 1 2 Store.empty).isSome := by
  have h := backward_dual_fetch_safe (α := ℤ) 0 1 2 (by decide) (by decide)
  exact ⟨(h.1 1 1 1 [[1]] [[1]] Store.empty trivial trivial trivial).1,
    (h.2 (by decide) 1 1 [1] [[1]] Store.empty trivial trivial trivial).1⟩

/-- C8 (corrected): in the backward pass of `matmul_transpose` the gradient
of the LEFT operand is computed with the plain kernel `out += lhs * rhs`
(applied to the output gradient and the snapshot of the transposed right
operand), while the gradient of the transposed RIGHT operand is computed by
the transpose-both-output kernel, accumulating `(lhs-transposed * G)`
transposed into its slot. -/
theorem matmul_transpose_backward_kernels (M N O : ℕ) (lhsData rhs_tData : List (List α))
    (lhsId rhsId outId : ℕ) (grads : Store (Buf α))
    (h1 : lhsId ≠ outId) (h2 : rhsId ≠ outId) (h3 : lhsId ≠ rhsId)
    (hL : slotD2 grads lhsId) (hR : slotD2 grads rhsId) (hO : slotD2 grads outId) :
    ∃ s1, matmulTransposeBackward M N O lhsData rhs_tData lhsId rhsId outId grads = some s1 ∧
      s1 lhsId = some (.d2 (matmat_mul_into M O N (getD2 grads outId M O) rhs_tData
        (getD2 grads lhsId M N))) ∧
      s1 rhsId = some (.d2 (addM O N (getD2 grads rhsId O N)
        (trM N O (matMulM N M O (trM M N lhsData) (getD2 grads outId M O))))) := by
  obtain ⟨s1, he, hl, hr, -, -⟩ :=
    matmulTransposeBackward_eq M N O lhsData rhs_tData lhsId rhsId outId grads h1 h2 h3 hL hR hO
  refine ⟨s1, he, hl, ?_⟩
  rw [hr, matmat_mul_into_xtzt_eq]

/-- C8 counterexample: at `lhs = [[0,1],[0,0]]` and seed gradient
`G = [[1,0],[0,0]]`, the buffer the backward pass of `matmul_transpose`
stores for the right operand is `[[0,1],[0,0]]`, while the plain kernel
applied to the operands of that gradient computation (`lhs` and `G`)
produces `[[0,0],[0,0]]`: the right operand's gradient is not computed by
the plain kernel. -/
theorem matmul_transpose_rhs_kernel_counterexample :
    (matmulTransposeBackward (α := ℤ) 2 2 2 [[0,1],[0,0]] [[0,0],[0,0]] 0 1 2
        (Store.empty.set 2 (Buf.d2 [[1,0],[0,0]]))).map (fun s => s 1) =
      some (some (Buf.d2 [[0,1],[0,0]])) ∧
    matmat_mul_into (α := ℤ) 2 2 2 [[0,1],[0,0]] [[1,0],[0,0]] (zeros2 2 2) =
      [[0,0],[0,0]] ∧
    ([[0,1],[0,0]] : List (List ℤ)) ≠ [[0,0],[0,0]] := by
  refine ⟨by decide, by decide, by decide⟩

/-- C8 witness: the kernel assignment at concrete 1x1 data. -/
theorem matmul_transpose_backward_kernels_witness :
    (matmulTransposeBackward (α := ℤ) 1 1 1 [[3]] [[5]] 0 1 2
        (Store.empty.set 2 (Buf.d2 [[2]]))).map (fun s => (s 0, s 1)) =
      some (some (Buf.d2 [[10]]), some (Buf.d2 [[6]])) := by
  obtain ⟨s1, he, hl, hr⟩ := matmul_transpose_backward_kernels (α := ℤ) 1 1 1 [[3]] [[5]] 0 1 2
    (Store.empty.set 2 (Buf.d2 [[2]]))
    (by decide) (by decide) (by decide) trivial trivial trivial
  rw [he]
  dsimp only [Option.map]
  rw [hl, hr]
  decide

theorem dlBatchesWith_intoNext_perm {γ : Type} (B : ℕ) (sh dl : Bool)
    (shufs : ℕ → List γ → List γ) (hperm : ∀ k l, (shufs k l).Perm l) :
    ∀ (fuel k0 : ℕ) (it : List γ) (j : ℕ) (b : List γ),
      (dlBatchesWith (dlIntoIterNext B sh dl) shufs fuel k0 it).get? j = some b →
      b.Perm ((it.drop (j * B)).take B) := by
  intro fuel
  induction fuel with
  | zero =>
    intro k0 it j b h
    simp [dlBatchesWith] at h
  | succ f ih =>
    intro k0 it j b h
    unfold dlBatchesWith dlIntoIterNext at h
    by_cases hemp : (it.take B).isEmpty
    · simp [hemp] at h
    · rw [if_neg (by simpa using hemp)] at h
      by_cases hcond : (it.take B).length = B ∨ ((it.take B).length ≠ B ∧ ¬dl)
      · rw [if_pos hcond] at h
        cases j with
        | zero =>
          simp only [List.get?_cons_zero, Option.some.injEq] at h
          subst h
          rw [Nat.zero_mul, List.drop_zero]
          by_cases hsh : sh
          · simp only [hsh, if_true]
            exact hperm k0 (it.take B)
          · rw [if_neg hsh]
        | succ j =>
          simp only [List.get?_cons_succ] at h
          have := ih (k0 + 1) (it.drop B) j b h
          rw [List.drop_drop] at this
          rw [Nat.succ_mul, Nat.add_comm (j * B) B]
          exact this
      · rw [if_neg hcond] at h
        simp at h

/-- C10: for every dataset, batch size, shuffle flag and generator (modelled
as an arbitrary family of permutations applied in place of the in-place
Fisher-Yates shuffle), the `k`-th batch yielded by the data loader is, as a
multiset, exactly the dataset's samples at positions `k*B` through
`k*B + B - 1` in iteration order: shuffling only permutes samples inside an
already-formed batch, never across batches, for both the consuming and the
borrowing iterator. -/
theorem dataloader_batches_perm {γ : Type} (B : ℕ) (shuffle dropLast : Bool)
    (shufs : ℕ → List γ → List γ) (ds : List γ)
    (hperm : ∀ k l, (shufs k l).Perm l) :
    (∀ k b, (dlIntoIterBatches B shuffle dropLast shufs ds).get? k = some b →
      b.Perm ((ds.drop (k * B)).take B)) ∧
    (∀ k b, (dlIterBatches B shuffle dropLast shufs ds).get? k = some b →
      b.Perm ((ds.drop (k * B)).take B)) := by
  have hsame : dlIterNext (γ := γ) B shuffle dropLast = dlIntoIterNext B shuffle dropLast := rfl
  constructor
  · intro k b h
    exact dlBatchesWith_intoNext_perm B shuffle dropLast shufs hperm ds.length 0 ds k b h
  · intro k b h
    rw [dlIterBatches, hsame] at h
    exact dlBatchesWith_intoNext_perm B shuffle dropLast shufs hperm ds.length 0 ds k b h

/-- C10 witness: with batch size 3 and a reversing shuffle, the second batch
over `[1,...,7]` is `[6,5,4]`, a permutation of positions 3..5. -/
theorem dataloader_batches_perm_witness :
    (dlIntoIterBatches 3 true false (fun _ l => l.reverse) [1,2,3,4,5,6,7]).get? 1 =
      some [6,5,4] ∧
    ([6,5,4] : List ℕ).Perm ((([1,2,3,4,5,6,7] : List ℕ).drop (1 * 3)).take 3) := by
  refine ⟨by decide, ?_⟩
  exact (dataloader_batches_perm 3 true false (fun _ l => l.reverse) [1,2,3,4,5,6,7]
    (fun _ l => l.reverse_perm)).1 1 [6,5,4] (by decide)

end Dfdx
